import Mathlib

/-
  Verification of the mutual-information estimation engine in
  monitor/mutual_info/mutual_info.py (class MutualInfo and its subclasses).

  Shallow embedding conventions:
  * Python float arithmetic is modelled by exact arithmetic (ℚ where the code
    never takes square roots, ℝ for the fixed-range digitizer which uses a
    standard deviation).
  * A tensor is a batch: a list of sample rows of rational feature values.
  * A layer's mutable `forward` attribute is modelled by the `Forward`
    inductive: `orig fid` is the class-level bound method of layer object
    `fid` (Python attribute lookup falls back to it when no instance
    attribute shadows it), and `wrapped wid name inner` is a closure produced
    by `wrap_forward`; the id `wid` is drawn from a fresh counter, so
    structural equality of `Forward` values coincides with Python `==` on the
    corresponding function objects.
  * Python dicts are association lists; updating an existing key rewrites it
    in place, a new key is appended (insertion order semantics).
  * Assertion failures are modelled by `Option`: `none` is the raised
    AssertionError.
-/

/-- Tensors: a batch of sample rows. -/
abbrev Tensor := List (List ℚ)

/-- Association-list lookup, mirroring Python dict access. -/
def alookup {κ α : Type} [DecidableEq κ] : List (κ × α) → κ → Option α
  | [], _ => none
  | (k', v) :: t, k => if k' = k then some v else alookup t k

/-- Association-list update, mirroring Python dict assignment: an existing key
is rewritten in place, a new key is appended. -/
def alistSet {κ α : Type} [DecidableEq κ] : List (κ × α) → κ → α → List (κ × α)
  | [], k, v => [(k, v)]
  | (k', v') :: t, k, v => if k' = k then (k, v) :: t else (k', v') :: alistSet t k v

/-- A value of a layer's `forward` attribute.  `orig fid` is the original
bound method of layer object `fid`; `wrapped wid name inner` is the closure
`forward_and_save` created by `wrap_forward(name, inner)`, tagged with a fresh
id `wid` so that distinct closure objects are distinct values. -/
inductive Forward : Type
  | orig (fid : ℕ)
  | wrapped (wid : ℕ) (layerName : String) (inner : Forward)
deriving DecidableEq, Repr

/-- A value stored in the `activations` dict: either a buffer of raw captured
tensors (hidden layers during listening) or processed integer symbols (the
"input"/"target" references established by `prepare`). -/
inductive ActVal : Type
  | raws (batches : List Tensor)
  | syms (symbols : List ℤ)
deriving DecidableEq, Repr

/-- The mutable state of a MutualInfo object (fields of `__init__`).
`layerForward` records the instance attributes shadowing each layer object's
class-level `forward`; a layer id absent from it still has its original
forward `Forward.orig lid`.  `estimate_size` is `WithTop ℕ` because the
default is `np.inf`. -/
structure MIState : Type where
  estimate_size : WithTop ℕ
  compression_range : ℚ × ℚ
  debug : Bool
  n_bins : List (String × ℕ)
  layers : List (String × ℕ × Forward)
  layerForward : List (ℕ × Forward)
  activations : List (String × ActVal)
  quantized : List (String × ActVal)
  information : List (String × ℚ × ℚ)
  is_active : Bool
  eval_loader : Option (List Tensor × ℕ)
  nextWid : ℕ
deriving DecidableEq

/-- The current value of the `forward` attribute of layer object `lid`:
the shadowing instance attribute when one was assigned, the class-level
original otherwise. -/
def currentForward (s : MIState) (lid : ℕ) : Forward :=
  (alookup s.layerForward lid).getD (Forward.orig lid)

/-- Modelled from the spec: the scheduling gate (class `Schedule` of
`monitor.batch_timer`, which is not among the sources) is a
configuration-driven predicate over the ambient epoch/batch counters with no
side effects of its own; when it denies, the decorated method body is
skipped.  We pass its verdict to each decorated method as an explicit
boolean. -/
abbrev ScheduleVerdict := Bool

/-- `register(layer, name)`: store the sub-module and its current forward
computation under `name` (source lines 45-46). -/
def register (s : MIState) (lid : ℕ) (name : String) : MIState :=
  { s with layers := alistSet s.layers name (lid, currentForward s lid) }

/-- `wrap_forward(layer_name, forward_orig)` creates the fresh closure
`forward_and_save` (source lines 101-107); its run-time behavior is
`evalForward`. -/
def wrap_forward (wid : ℕ) (layer_name : String) (forward_orig : Forward) : Forward :=
  Forward.wrapped wid layer_name forward_orig

/-- The loop body of `start_listening` (source lines 88-90): for each
registered layer whose forward still equals its recorded original, install a
fresh wrapper. -/
def start_listening_loop : List (String × ℕ × Forward) → MIState → MIState
  | [], s => s
  | (name, lid, forward_orig) :: rest, s =>
      if currentForward s lid = forward_orig then
        start_listening_loop rest
          { s with
            layerForward :=
              alistSet s.layerForward lid (wrap_forward s.nextWid name forward_orig),
            nextWid := s.nextWid + 1 }
      else
        start_listening_loop rest s

/-- `start_listening` (source lines 86-91), `Schedule`-gated: when the gate
permits, wrap every still-unwrapped registered layer and set `is_active`. -/
def start_listening (gate : ScheduleVerdict) (s : MIState) : MIState :=
  if gate then { start_listening_loop s.layers s with is_active := true } else s

/-- The loop of `finish_listening` (source lines 96-97): unconditionally
restore every registered layer's stored original forward. -/
def finish_listening_loop : List (String × ℕ × Forward) → MIState → MIState
  | [], s => s
  | (_, lid, forward_orig) :: rest, s =>
      finish_listening_loop rest
        { s with layerForward := alistSet s.layerForward lid forward_orig }

/-- `hidden_layer_names` (source lines 120-121). -/
def hidden_layer_names (s : MIState) : List String :=
  (s.activations.map (fun p => p.1)).filter (fun n => !(n == "input" || n == "target"))

/-- The merge loop of `save_information_async` (source lines 177-180): fold
each completed per-layer result (quantized, info_x, info_y, n_bins) into the
information record, the quantized cache and the bin counts. -/
def save_information_merge (compute : String → ActVal → List ℤ × ℚ × ℚ × ℕ) :
    List (String × ActVal) → MIState → MIState
  | [], st => st
  | (h, a) :: rest, st =>
      let r := compute h a
      save_information_merge compute rest
        { st with
          information := alistSet st.information h (r.2.1, r.2.2.1),
          quantized := alistSet st.quantized h (ActVal.syms r.1),
          n_bins := alistSet st.n_bins h r.2.2.2 }

/-- `save_information_async` (source lines 173-180).  The per-layer job
`_compute_async` runs `self.process` and `self.compute_mutual_info` inside a
worker process of the `ProcessPoolExecutor`; mutations it makes to its copy of
`self` never propagate back, and only its returned tuple
(quantized, info_x, info_y, n_bins) is merged, so from the parent state's
point of view it is the pure function `compute` passed here as a parameter.
The hidden layers' buffered activations are popped when the argument list is
built. -/
def save_information_async (compute : String → ActVal → List ℤ × ℚ × ℚ × ℕ)
    (s : MIState) : MIState :=
  let hnames := hidden_layer_names s
  let inputVal := (alookup s.activations "input").getD (ActVal.raws [])
  let args := hnames.map (fun h => (h, (alookup s.activations h).getD (ActVal.raws [])))
  save_information_merge compute args
    { s with
      quantized := [("input", inputVal)],
      activations := s.activations.filter (fun p => !(hnames.contains p.1)) }

/-- `finish_listening` (source lines 93-99): no-op when not active; otherwise
restore all originals, clear `is_active`, and trigger the asynchronous result
computation. -/
def finish_listening (compute : String → ActVal → List ℤ × ℚ × ℚ × ℕ)
    (s : MIState) : MIState :=
  if s.is_active then
    save_information_async compute
      { finish_listening_loop s.layers s with is_active := false }
  else s

/-- `save_activations` (source lines 109-111): append the captured tensor to
the layer's buffer when the buffered sample count is still below
`estimate_size`.  (When the entry already holds processed symbols the Python
code would fail on `len`/`append`; no code path reaches that case, and we
leave the state unchanged there.) -/
def save_activations (layer_name : String) (t : Tensor) (s : MIState) : MIState :=
  match (alookup s.activations layer_name).getD (ActVal.raws []) with
  | ActVal.raws ts =>
      if ((ts.map List.length).sum : WithTop ℕ) < s.estimate_size then
        { s with activations := alistSet s.activations layer_name (ActVal.raws (ts ++ [t])) }
      else s
  | ActVal.syms _ => s

/-- Run-time behavior of a forward value on an input batch.  `origSem` gives
the input/output semantics of each layer object's original forward.  A
wrapper (`forward_and_save`, source lines 102-106) asserts `is_active`
(`none` models the AssertionError), invokes the original, saves the output,
and returns the output unchanged. -/
def evalForward (origSem : ℕ → Tensor → Tensor) :
    Forward → MIState → Tensor → Option (Tensor × MIState)
  | Forward.orig fid, s, input => some (origSem fid input, s)
  | Forward.wrapped _ layer_name inner, s, input =>
      if s.is_active then
        match evalForward origSem inner s input with
        | none => none
        | some (output, s') => some (output, save_activations layer_name output s')
      else none

/-- The batch loop of `update` (source lines 57-62): run the model on each
batch, stopping once `batch_id * batch_size` reaches `estimate_size`.  The
model collaborator is external; `runModel` is its effect of one forward pass
(it invokes the registered layers' current forwards, hence may mutate the
state). -/
def update_loop (runModel : Tensor → MIState → MIState) (batch_size : ℕ)
    (cap : WithTop ℕ) : List Tensor → ℕ → MIState → MIState
  | [], _, s => s
  | img :: rest, batch_id, s =>
      let s' := runModel img s
      if cap ≤ (batch_id * batch_size : ℕ) then s'
      else update_loop runModel batch_size cap rest (batch_id + 1) s'

/-- `update` (source lines 48-63): return immediately when `eval_loader` is
unset; otherwise start listening, bail out if the session did not become
active, else run the evaluation batches and finish listening. -/
def update (gate : ScheduleVerdict)
    (compute : String → ActVal → List ℤ × ℚ × ℚ × ℕ)
    (runModel : Tensor → MIState → MIState) (s : MIState) : MIState :=
  match s.eval_loader with
  | none => s
  | some (batches, batch_size) =>
      let s1 := start_listening gate s
      if s1.is_active then
        finish_listening compute (update_loop runModel batch_size s1.estimate_size batches 0 s1)
      else s1

/-- A plotting-collaborator call.  The numeric array payloads of `bar` and
`boxplot` (sorted bin counts, the stacked counts matrix) are elided; the
`line` event carries the mutual-information series exactly as built by
`plot`.  `perBin` distinguishes the two `boxplot` branches of
`plot_quantized_dispersion` (all layers sharing one bin count versus not). -/
inductive VizEvent : Type
  | bar (win : String)
  | boxplot (win : String) (legend : List String) (perBin : Bool)
  | line (win : String) (xs ys : List ℚ) (legend : List String)
deriving DecidableEq, Repr

/-- `plot_quantized_hist` (source lines 126-135): one bar window per
quantized layer. -/
def plot_quantized_hist (s : MIState) : List VizEvent :=
  s.quantized.map (fun p => VizEvent.bar (p.1 ++ " MI hist"))

/-- `plot_quantized_dispersion` (source lines 137-164), `Schedule`-gated:
no-op when any recorded bin count is zero; otherwise one boxplot to window
"MI hist" whose shape depends on whether all quantized layers share one bin
count, plus the debug histograms. -/
def plot_quantized_dispersion (gate : ScheduleVerdict) (s : MIState) : List VizEvent :=
  if gate then
    if s.n_bins.any (fun p => p.2 = 0) then []
    else
      let legend := s.quantized.map
        (fun p => p.1 ++ " (" ++ toString ((alookup s.n_bins p.1).getD 0) ++ " bins)")
      let samebins :=
        ((s.quantized.map (fun p => (alookup s.n_bins p.1).getD 0)).dedup).length = 1
      [VizEvent.boxplot "MI hist" legend (decide samebins)]
        ++ (if s.debug then plot_quantized_hist s else [])
  else []

/-- `plot` (source lines 190-212): assert no pass is active (`none` models
the AssertionError); return silently when the information record is empty;
otherwise plot the dispersion, emit the mutual-information plane line built
from every record entry, and delete every entry. -/
def plot (gate : ScheduleVerdict) (s : MIState) : Option (MIState × List VizEvent) :=
  if s.is_active then none
  else if s.information.isEmpty then some (s, [])
  else
    some ({ s with information := [] },
      plot_quantized_dispersion gate s
        ++ [VizEvent.line "Mutual information plane"
              (s.information.map (fun p => p.2.1))
              (s.information.map (fun p => p.2.2))
              (s.information.map (fun p => p.1))])

/-- Lexicographic order on integer rows, the row order `np.unique(·, axis=0)`
sorts by. -/
def lexLe : List ℤ → List ℤ → Bool
  | [], _ => true
  | _ :: _, [] => false
  | a :: as, b :: bs => if a < b then true else if b < a then false else lexLe as bs

def insertRow (r : List ℤ) : List (List ℤ) → List (List ℤ)
  | [] => [r]
  | x :: t => if lexLe r x then r :: x :: t else x :: insertRow r t

/-- Insertion sort of rows under `lexLe`. -/
def sortRows : List (List ℤ) → List (List ℤ)
  | [] => []
  | x :: t => insertRow x (sortRows t)

/-- `np.unique(m, axis=0)`: the distinct rows of `m` in sorted order. -/
def npUniqueRows (m : List (List ℤ)) : List (List ℤ) :=
  sortRows m.dedup

/-- Index of the first occurrence of `x` in `l` (length of `l` when absent). -/
def idxOf {β : Type} [DecidableEq β] : List β → β → ℕ
  | [], _ => 0
  | y :: t, x => if y = x then 0 else idxOf t x + 1

/-- The `inverse` array of `np.unique(m, return_inverse=True, axis=0)`: each
row replaced by the index of its value in the sorted distinct-row array. -/
def npUniqueInverse (m : List (List ℤ)) : List ℤ :=
  m.map (fun r => (idxOf (npUniqueRows m) r : ℤ))

/-- `MutualInfoBin.quantize` (source lines 250-253): digitize, then collapse
duplicate digitized rows to the dense inverse-index alphabet.  The abstract
method `digitize` of the variant is passed as `dig`. -/
def MutualInfoBin.quantize {α : Type}
    (dig : List (List α) → ℕ → List (List ℤ))
    (activations : List (List α)) (n_bins : ℕ) : List ℤ :=
  npUniqueInverse (dig activations n_bins)

/-- `self.max_trials_adjust` (source line 33). -/
def max_trials_adjust : ℕ := 10

/-- The `n_bins_default` property (source lines 41-43). -/
def n_bins_default : ℕ := 20

/-- The compression measured by one trial of `adjust_bins` (source lines
233-235): digitize, count the distinct digitized rows with
`np.unique(digitized, axis=0)`, and form
`(len(activations) - len(unique)) / len(activations)`. -/
def compressionOf (dig : ℕ → List (List ℤ)) (nSamples : ℕ) (n_bins : ℕ) : ℚ :=
  ((nSamples : ℚ) - ((npUniqueRows (dig n_bins)).length : ℚ)) / (nSamples : ℚ)

/-- The trial loop of `adjust_bins` (source lines 232-243), with the
digitization of the fixed activations abstracted as `dig` and
`len(activations)` as `nSamples`.  Returns the resulting bin count together
with the number of digitization trials performed.  `int(n_bins / 2)` is
floor division for the positive bin counts involved. -/
def adjust_bins_go (dig : ℕ → List (List ℤ)) (nSamples : ℕ)
    (compression_min compression_max : ℚ) : ℕ → ℕ → ℕ × ℕ
  | 0, n_bins => (n_bins, 0)
  | fuel + 1, n_bins =>
      let compression : ℚ := compressionOf dig nSamples n_bins
      if compression_max < compression then
        let r := adjust_bins_go dig nSamples compression_min compression_max fuel (n_bins * 2)
        (r.1, r.2 + 1)
      else if compression < compression_min then
        let nb := max 2 (n_bins / 2)
        if nb = 2 then (nb, 1)
        else
          let r := adjust_bins_go dig nSamples compression_min compression_max fuel nb
          (r.1, r.2 + 1)
      else (n_bins, 1)

/-- `MutualInfoBin.adjust_bins` (source lines 229-244): the accepted bin
count, searching from `n_bins_default` for at most `max_trials_adjust`
trials. -/
def adjust_bins {α : Type} (dig : List (List α) → ℕ → List (List ℤ))
    (activations : List (List α)) (compression_min compression_max : ℚ) : ℕ :=
  (adjust_bins_go (dig activations) activations.length compression_min compression_max
      max_trials_adjust n_bins_default).1

/-- The number of digitization trials `adjust_bins` performs. -/
def adjust_bins_trials {α : Type} (dig : List (List α) → ℕ → List (List ℤ))
    (activations : List (List α)) (compression_min compression_max : ℚ) : ℕ :=
  (adjust_bins_go (dig activations) activations.length compression_min compression_max
      max_trials_adjust n_bins_default).2

/-- `np.linspace(start=0, stop=100, num, endpoint=True)`. -/
def linspace100 (num : ℕ) : List ℚ :=
  if num ≤ 1 then (List.range num).map (fun _ => 0)
  else (List.range num).map (fun i => 100 * (i : ℚ) / ((num : ℚ) - 1))

def insertQ (x : ℚ) : List ℚ → List ℚ
  | [] => [x]
  | y :: t => if x ≤ y then x :: y :: t else y :: insertQ x t

/-- Insertion sort of rationals. -/
def sortQ : List ℚ → List ℚ
  | [] => []
  | x :: t => insertQ x (sortQ t)

/-- `np.percentile` with the default linear interpolation, on one column. -/
def percentile (xs : List ℚ) (q : ℚ) : ℚ :=
  let s := sortQ xs
  let n := s.length
  if n = 0 then 0
  else
    let h : ℚ := q / 100 * ((n : ℚ) - 1)
    let k : ℕ := (max 0 ⌊h⌋).toNat
    let d : ℚ := h - (k : ℚ)
    let lo := s.getD k 0
    let hi := s.getD (min (k + 1) (n - 1)) 0
    lo + d * (hi - lo)

/-- `np.digitize(x, bins, right=True)` for monotonically increasing `bins`:
the number of breakpoints strictly below `x`. -/
def npDigitizeRight (x : ℚ) (bins : List ℚ) : ℤ :=
  (bins.countP (fun b => decide (b < x)) : ℤ)

/-- Column `j` of a batch matrix. -/
def colVals (rows : List (List ℚ)) (j : ℕ) : List ℚ :=
  rows.map (fun r => r.getD j 0)

/-- `MutualInfoQuantile.digitize` (source lines 277-285): per-dimension
percentile breakpoints at `n_bins` equally spaced quantiles, each entry
digitized against its dimension's breakpoints, right-inclusive. -/
def MutualInfoQuantile.digitize (rows : List (List ℚ)) (n_bins : ℕ) : List (List ℤ) :=
  rows.map (fun r =>
    (List.range r.length).map (fun j =>
      npDigitizeRight (r.getD j 0) ((linspace100 n_bins).map (percentile (colVals rows j)))))

/-- Column-wise mean over the sample dimension (`activations.mean(dim=0)`). -/
noncomputable def colMean (rows : List (List ℝ)) (j : ℕ) : ℝ :=
  ((rows.map (fun r => r.getD j 0)).sum) / (rows.length : ℝ)

/-- Column-wise standard deviation (`activations.std(dim=0)`, torch default:
unbiased, dividing by n - 1).  Model caveat: for a single-sample batch the
division by n - 1 = 0 yields 0 here where torch.std returns NaN, so theorems
about the fixed-range digitizer restrict to columns of nonzero standard
deviation, where the two agree. -/
noncomputable def colStd (rows : List (List ℝ)) (j : ℕ) : ℝ :=
  Real.sqrt (((rows.map (fun r => (r.getD j 0 - colMean rows j) ^ 2)).sum)
    / ((rows.length : ℝ) - 1))

/-- `.type(torch.LongTensor)`: float-to-integer conversion truncates toward
zero. -/
noncomputable def floatToLong (x : ℝ) : ℤ :=
  if 0 ≤ x then ⌊x⌋ else ⌈x⌉

/-- `MutualInfoBinFixed.digitize` (source lines 258-265): map each entry
linearly from the per-column range [mean - 2 std, mean + 2 std] onto
`n_bins`, clamp into [0, n_bins], convert to integers.  Model caveat: when a
column's range has zero width (constant column, or a single-sample batch),
the float code computes 0/0 = NaN, which passes through clamp_ and makes the
long cast unspecified, while real division here maps 0/0 to 0; theorems about
the level range of this digitizer therefore carry a nonzero-standard-
deviation hypothesis confining them to the faithful domain. -/
noncomputable def MutualInfoBinFixed.digitize (rows : List (List ℝ)) (n_bins : ℕ) :
    List (List ℤ) :=
  rows.map (fun r =>
    (List.range r.length).map (fun j =>
      let m := colMean rows j
      let sig := colStd rows j
      let dim0_min := m - 2 * sig
      let dim0_max := m + 2 * sig
      floatToLong (max 0 (min (n_bins : ℝ)
        ((n_bins : ℝ) * (r.getD j 0 - dim0_min) / (dim0_max - dim0_min))))))

/-- `MutualInfoKMeans.digitize` (source lines 290-293): the per-sample
cluster labels of `MiniBatchKMeans(n_clusters=n_bins).fit_predict`; the
clustering lives in sklearn (an external collaborator), so its label
assignment is a parameter. -/
def MutualInfoKMeans.digitize
    (fitPredict : List (List ℚ) → ℕ → List ℤ)
    (activations : List (List ℚ)) (n_bins : ℕ) : List ℤ :=
  fitPredict activations n_bins

/-- `MutualInfoKMeans.quantize` (source lines 295-296): the digitization is
returned directly. -/
def MutualInfoKMeans.quantize
    (fitPredict : List (List ℚ) → ℕ → List ℤ)
    (activations : List (List ℚ)) (n_bins : ℕ) : List ℤ :=
  MutualInfoKMeans.digitize fitPredict activations n_bins

lemma alookup_alistSet_self {κ α : Type} [DecidableEq κ] (l : List (κ × α)) (k : κ) (v : α) :
    alookup (alistSet l k v) k = some v := by
  induction l with
  | nil => simp [alistSet, alookup]
  | cons p t ih =>
      obtain ⟨k', v'⟩ := p
      by_cases h : k' = k
      · simp [alistSet, h, alookup]
      · simp [alistSet, h, alookup, ih]

lemma alookup_alistSet_other {κ α : Type} [DecidableEq κ] (l : List (κ × α)) (k k' : κ)
    (v : α) (h : k ≠ k') : alookup (alistSet l k v) k' = alookup l k' := by
  induction l with
  | nil => simp [alistSet, alookup, h]
  | cons p t ih =>
      obtain ⟨k'', v''⟩ := p
      by_cases h2 : k'' = k
      · subst h2
        simp [alistSet, alookup, h]
      · by_cases h3 : k'' = k'
        · subst h3
          simp [alistSet, alookup, h2]
        · simp [alistSet, h2, alookup, h3, ih]

lemma currentForward_congr (s s' : MIState) (lid : ℕ)
    (h : s.layerForward = s'.layerForward) : currentForward s lid = currentForward s' lid := by
  simp [currentForward, h]

lemma start_listening_loop_layers (L : List (String × ℕ × Forward)) (s : MIState) :
    (start_listening_loop L s).layers = s.layers := by
  induction L generalizing s with
  | nil => rfl
  | cons e t ih =>
      obtain ⟨name, lid, forig⟩ := e
      by_cases h : currentForward s lid = forig
      · simp [start_listening_loop, h, ih]
      · simp [start_listening_loop, h, ih]

lemma finish_listening_loop_layers (L : List (String × ℕ × Forward)) (s : MIState) :
    (finish_listening_loop L s).layers = s.layers := by
  induction L generalizing s with
  | nil => rfl
  | cons e t ih =>
      obtain ⟨name, lid, forig⟩ := e
      simp [finish_listening_loop, ih]

lemma finish_listening_loop_notmem (L : List (String × ℕ × Forward)) (s : MIState)
    (lid : ℕ) (h : lid ∉ L.map (fun e => e.2.1)) :
    currentForward (finish_listening_loop L s) lid = currentForward s lid := by
  induction L generalizing s with
  | nil => rfl
  | cons e t ih =>
      obtain ⟨name, lid2, forig⟩ := e
      simp only [List.map_cons, List.mem_cons] at h
      push_neg at h
      rw [finish_listening_loop, ih _ h.2]
      simp [currentForward, alookup_alistSet_other _ _ _ _ (fun he => h.1 he.symm)]

lemma finish_listening_loop_restores (L : List (String × ℕ × Forward)) :
    ∀ (s : MIState) (name : String) (lid : ℕ) (forig : Forward),
    (name, lid, forig) ∈ L → ((L.map (fun e => e.2.1)).Nodup) →
    currentForward (finish_listening_loop L s) lid = forig := by
  induction L with
  | nil => intro s name lid forig hmem _; cases hmem
  | cons e t ih =>
      obtain ⟨name2, lid2, forig2⟩ := e
      intro s name lid forig hmem hnodup
      simp only [List.map_cons, List.nodup_cons] at hnodup
      rw [finish_listening_loop]
      rcases List.mem_cons.mp hmem with heq | htail
      · simp only [Prod.mk.injEq] at heq
        obtain ⟨h1, h2, h3⟩ := heq
        subst h2
        subst h3
        rw [finish_listening_loop_notmem t _ lid hnodup.1]
        simp [currentForward, alookup_alistSet_self]
      · exact ih _ name lid forig htail hnodup.2

lemma save_information_merge_layerForward
    (compute : String → ActVal → List ℤ × ℚ × ℚ × ℕ)
    (L : List (String × ActVal)) (st : MIState) :
    (save_information_merge compute L st).layerForward = st.layerForward := by
  induction L generalizing st with
  | nil => rfl
  | cons e t ih =>
      obtain ⟨h, a⟩ := e
      rw [save_information_merge, ih]

lemma save_information_merge_layers
    (compute : String → ActVal → List ℤ × ℚ × ℚ × ℕ)
    (L : List (String × ActVal)) (st : MIState) :
    (save_information_merge compute L st).layers = st.layers := by
  induction L generalizing st with
  | nil => rfl
  | cons e t ih =>
      obtain ⟨h, a⟩ := e
      rw [save_information_merge, ih]

lemma save_information_merge_is_active
    (compute : String → ActVal → List ℤ × ℚ × ℚ × ℕ)
    (L : List (String × ActVal)) (st : MIState) :
    (save_information_merge compute L st).is_active = st.is_active := by
  induction L generalizing st with
  | nil => rfl
  | cons e t ih =>
      obtain ⟨h, a⟩ := e
      rw [save_information_merge, ih]

lemma save_information_async_layerForward
    (compute : String → ActVal → List ℤ × ℚ × ℚ × ℕ) (s : MIState) :
    (save_information_async compute s).layerForward = s.layerForward := by
  rw [save_information_async, save_information_merge_layerForward]

lemma start_listening_layers (gate : ScheduleVerdict) (s : MIState) :
    (start_listening gate s).layers = s.layers := by
  cases gate <;> simp [start_listening, start_listening_loop_layers]

lemma finish_listening_restores
    (compute : String → ActVal → List ℤ × ℚ × ℚ × ℕ)
    (s : MIState) (name : String) (lid : ℕ) (forig : Forward)
    (hmem : (name, lid, forig) ∈ s.layers)
    (hnodup : (s.layers.map (fun e => e.2.1)).Nodup)
    (hcur : s.is_active = false → currentForward s lid = forig) :
    currentForward (finish_listening compute s) lid = forig := by
  rw [finish_listening]
  by_cases hact : s.is_active
  · rw [if_pos hact]
    refine Eq.trans
      (currentForward_congr _ _ lid (save_information_async_layerForward compute _)) ?_
    exact finish_listening_loop_restores s.layers _ name lid forig hmem hnodup
  · rw [if_neg hact]
    exact hcur (Bool.not_eq_true _ ▸ hact)

lemma start_finish_currentForward
    (compute : String → ActVal → List ℤ × ℚ × ℚ × ℕ) (gate : ScheduleVerdict)
    (s : MIState) (name : String) (lid : ℕ) (forig : Forward)
    (hmem : (name, lid, forig) ∈ s.layers)
    (hnodup : (s.layers.map (fun e => e.2.1)).Nodup)
    (hcur : currentForward s lid = forig) :
    currentForward (finish_listening compute (start_listening gate s)) lid = forig := by
  apply finish_listening_restores compute (start_listening gate s) name lid forig
  · rw [start_listening_layers]
    exact hmem
  · rw [start_listening_layers]
    exact hnodup
  · intro hinact
    cases gate with
    | false => simpa [start_listening] using hcur
    | true => simp [start_listening] at hinact

lemma adjust_bins_go_trials_le (dig : ℕ → List (List ℤ)) (nSamples : ℕ)
    (cmin cmax : ℚ) : ∀ fuel n_bins,
    (adjust_bins_go dig nSamples cmin cmax fuel n_bins).2 ≤ fuel := by
  intro fuel
  induction fuel with
  | zero => intro n_bins; simp [adjust_bins_go]
  | succ f ih =>
      intro n_bins
      simp only [adjust_bins_go]
      split
      · exact Nat.succ_le_succ (ih _)
      · split
        · split
          · exact Nat.le_add_left 1 f
          · exact Nat.succ_le_succ (ih _)
        · exact Nat.le_add_left 1 f

lemma adjust_bins_go_ge_two (dig : ℕ → List (List ℤ)) (nSamples : ℕ)
    (cmin cmax : ℚ) : ∀ fuel n_bins, 2 ≤ n_bins →
    2 ≤ (adjust_bins_go dig nSamples cmin cmax fuel n_bins).1 := by
  intro fuel
  induction fuel with
  | zero => intro n_bins h; simpa [adjust_bins_go] using h
  | succ f ih =>
      intro n_bins h
      simp only [adjust_bins_go]
      split
      · exact ih _ (le_trans h (by omega))
      · split
        · split
          · omega
          · exact ih _ (le_max_left 2 _)
        · exact h

lemma mem_insertRow (r x : List ℤ) (l : List (List ℤ)) :
    x ∈ insertRow r l ↔ x = r ∨ x ∈ l := by
  induction l with
  | nil => simp [insertRow]
  | cons y t ih =>
      rw [insertRow]
      by_cases h : lexLe r y
      · rw [if_pos h]
        simp
      · rw [if_neg h]
        simp only [List.mem_cons, ih]
        tauto

lemma mem_sortRows (x : List ℤ) (l : List (List ℤ)) :
    x ∈ sortRows l ↔ x ∈ l := by
  induction l with
  | nil => simp [sortRows]
  | cons y t ih =>
      simp only [sortRows, mem_insertRow, List.mem_cons, ih]

lemma length_insertRow (r : List ℤ) (l : List (List ℤ)) :
    (insertRow r l).length = l.length + 1 := by
  induction l with
  | nil => rfl
  | cons y t ih =>
      by_cases h : lexLe r y
      · simp [insertRow, h]
      · simp [insertRow, h, ih]

lemma length_sortRows (l : List (List ℤ)) : (sortRows l).length = l.length := by
  induction l with
  | nil => rfl
  | cons y t ih => simp [sortRows, length_insertRow, ih]

lemma idxOf_lt_length {β : Type} [DecidableEq β] (l : List β) (x : β) (h : x ∈ l) :
    idxOf l x < l.length := by
  induction l with
  | nil => cases h
  | cons y t ih =>
      by_cases he : y = x
      · simp [idxOf, he]
      · rcases List.mem_cons.mp h with h1 | h2
        · exact absurd h1.symm he
        · simpa [idxOf, he] using ih h2

/-- Original forward semantics used in the concrete witnesses: every layer is
the identity on its input batch. -/
def exOrigSem : ℕ → Tensor → Tensor := fun _ t => t

/-- A trivial asynchronous per-layer computation used in the witnesses. -/
def exCompute : String → ActVal → List ℤ × ℚ × ℚ × ℕ := fun _ _ => ([], 0, 0, 0)

/-- A model collaborator that touches nothing, used in the witnesses. -/
def exRunModel : Tensor → MIState → MIState := fun _ s => s

/-- A freshly constructed MutualInfo state (the `__init__` defaults) with one
registered layer named "fc" (layer object 0, unwrapped) and no preparation
step performed. -/
def exState : MIState where
  estimate_size := ⊤
  compression_range := (1/2, 999/1000)
  debug := false
  n_bins := []
  layers := [("fc", 0, Forward.orig 0)]
  layerForward := []
  activations := []
  quantized := []
  information := []
  is_active := false
  eval_loader := none
  nextWid := 0

/-- `exState` with an active session. -/
def exStateActive : MIState := { exState with is_active := true }

/-- `exState` with an active session and a zero sample cap (the buffer is
already full). -/
def exStateCapped : MIState :=
  { exState with is_active := true, estimate_size := (0 : ℕ) }

/-- `exState` with one computed information record entry. -/
def exStateInfo : MIState := { exState with information := [("fc", 1, 2)] }

/-- The counterexample activation batch for the fixed-range digitizer: one
feature column with nine integer samples whose mean is exactly 0 and whose
unbiased standard deviation is exactly 1 (sum of squared deviations 8 over
n - 1 = 8), so the float computation is exact. -/
def fixedMat : List (List ℝ) := [[-2], [0], [0], [0], [0], [0], [0], [0], [2]]

lemma colMean_fixedMat :
    colMean ([[-2], [0], [0], [0], [0], [0], [0], [0], [2]] : List (List ℝ)) 0 = 0 := by
  norm_num [colMean]

lemma colStd_fixedMat :
    colStd ([[-2], [0], [0], [0], [0], [0], [0], [0], [2]] : List (List ℝ)) 0 = 1 := by
  have h : ((([[-2], [0], [0], [0], [0], [0], [0], [0], [2]] : List (List ℝ)).map
        (fun r => (r.getD 0 0
          - colMean [[-2], [0], [0], [0], [0], [0], [0], [0], [2]] 0) ^ 2)).sum)
      / ((([[-2], [0], [0], [0], [0], [0], [0], [0], [2]] : List (List ℝ)).length : ℝ) - 1)
      = 1 := by
    rw [colMean_fixedMat]
    norm_num
  rw [colStd, h, Real.sqrt_one]

lemma digitize_fixedMat :
    MutualInfoBinFixed.digitize fixedMat 2 = [[0], [1], [1], [1], [1], [1], [1], [1], [2]] := by
  rw [MutualInfoBinFixed.digitize, fixedMat]
  simp only [List.map_cons, List.map_nil, List.length_cons, List.length_nil, Nat.zero_add,
    List.range_succ, List.range_zero, List.nil_append]
  simp only [colMean_fixedMat, colStd_fixedMat]
  norm_num [floatToLong]

lemma floatToLong_clamp_mem (n : ℕ) (v : ℝ) :
    0 ≤ floatToLong (max 0 (min (n : ℝ) v))
    ∧ floatToLong (max 0 (min (n : ℝ) v)) ≤ (n : ℤ) := by
  set w : ℝ := max 0 (min (n : ℝ) v) with hw
  have h0 : (0 : ℝ) ≤ w := le_max_left _ _
  have hn : w ≤ (n : ℝ) := by
    rw [hw]
    apply max_le
    · exact_mod_cast n.cast_nonneg
    · exact min_le_left _ _
  rw [floatToLong, if_pos h0]
  refine ⟨Int.le_floor.mpr (by exact_mod_cast h0), ?_⟩
  calc ⌊w⌋ ≤ ⌊(n : ℝ)⌋ := Int.floor_le_floor hn
    _ = (n : ℤ) := Int.floor_natCast n

/-- C1: for every layer registered before a session starts (its forward is
the recorded original), a start-then-finish round trip restores the layer's
forward to exactly the recorded original, and a forward pass after the round
trip returns, on every input, bit for bit the same output as a forward pass
before start_listening. -/
theorem mutual_info_start_finish_roundtrip
    (origSem : ℕ → Tensor → Tensor)
    (compute : String → ActVal → List ℤ × ℚ × ℚ × ℕ) (gate : ScheduleVerdict)
    (s : MIState) (name : String) (lid fid : ℕ) (input : Tensor)
    (hmem : (name, lid, Forward.orig fid) ∈ s.layers)
    (hnodup : (s.layers.map (fun e => e.2.1)).Nodup)
    (hcur : currentForward s lid = Forward.orig fid) :
    currentForward (finish_listening compute (start_listening gate s)) lid = Forward.orig fid
    ∧ (evalForward origSem
          (currentForward (finish_listening compute (start_listening gate s)) lid)
          (finish_listening compute (start_listening gate s)) input).map Prod.fst
        = (evalForward origSem (currentForward s lid) s input).map Prod.fst
    ∧ (evalForward origSem (currentForward s lid) s input).map Prod.fst
        = some (origSem fid input) := by
  have h := start_finish_currentForward compute gate s name lid (Forward.orig fid)
    hmem hnodup hcur
  refine ⟨h, ?_, ?_⟩
  · rw [h, hcur]
    simp [evalForward]
  · rw [hcur]
    simp [evalForward]

/-- Witness for C1 at a concrete one-layer state. -/
theorem mutual_info_start_finish_roundtrip_witness :
    currentForward (finish_listening exCompute (start_listening true exState)) 0
        = Forward.orig 0
    ∧ (evalForward exOrigSem
          (currentForward (finish_listening exCompute (start_listening true exState)) 0)
          (finish_listening exCompute (start_listening true exState)) [[1]]).map Prod.fst
        = (evalForward exOrigSem (currentForward exState 0) exState [[1]]).map Prod.fst
    ∧ (evalForward exOrigSem (currentForward exState 0) exState [[1]]).map Prod.fst
        = some (exOrigSem 0 [[1]]) :=
  mutual_info_start_finish_roundtrip exOrigSem exCompute true exState "fc" 0 0 [[1]]
    (by decide) (by decide) (by decide)

/-- C2: for every digitizer and every non-empty activation matrix,
adjust_bins performs at most 10 digitization trials and returns a bin count
of at least 2; it starts from the default bin count 20 with trial budget 10,
and each trial doubles the bin count when the compression
(num_samples - num_distinct_digitized_rows) / num_samples exceeds the
configured maximum, halves it with floor 2 (stopping as soon as the floor is
reached) when the compression is below the configured minimum, and otherwise
accepts the current bin count. -/
theorem adjust_bins_bounded_search {α : Type}
    (dig : List (List α) → ℕ → List (List ℤ)) (activations : List (List α))
    (compression_min compression_max : ℚ) (_hpos : 0 < activations.length) :
    adjust_bins_trials dig activations compression_min compression_max ≤ 10
    ∧ 2 ≤ adjust_bins dig activations compression_min compression_max
    ∧ max_trials_adjust = 10
    ∧ n_bins_default = 20
    ∧ adjust_bins dig activations compression_min compression_max
        = (adjust_bins_go (dig activations) activations.length compression_min
            compression_max 10 20).1
    ∧ (∀ fuel n_bins,
        (compression_max < compressionOf (dig activations) activations.length n_bins →
          adjust_bins_go (dig activations) activations.length compression_min
              compression_max (fuel + 1) n_bins
            = ((adjust_bins_go (dig activations) activations.length compression_min
                  compression_max fuel (n_bins * 2)).1,
               (adjust_bins_go (dig activations) activations.length compression_min
                  compression_max fuel (n_bins * 2)).2 + 1))
        ∧ (¬ compression_max < compressionOf (dig activations) activations.length n_bins →
            compressionOf (dig activations) activations.length n_bins < compression_min →
            max 2 (n_bins / 2) = 2 →
            adjust_bins_go (dig activations) activations.length compression_min
              compression_max (fuel + 1) n_bins = (2, 1))
        ∧ (¬ compression_max < compressionOf (dig activations) activations.length n_bins →
            compressionOf (dig activations) activations.length n_bins < compression_min →
            max 2 (n_bins / 2) ≠ 2 →
            adjust_bins_go (dig activations) activations.length compression_min
                compression_max (fuel + 1) n_bins
              = ((adjust_bins_go (dig activations) activations.length compression_min
                    compression_max fuel (max 2 (n_bins / 2))).1,
                 (adjust_bins_go (dig activations) activations.length compression_min
                    compression_max fuel (max 2 (n_bins / 2))).2 + 1))
        ∧ (¬ compression_max < compressionOf (dig activations) activations.length n_bins →
            ¬ compressionOf (dig activations) activations.length n_bins < compression_min →
            adjust_bins_go (dig activations) activations.length compression_min
              compression_max (fuel + 1) n_bins = (n_bins, 1))) := by
  refine ⟨adjust_bins_go_trials_le _ _ _ _ _ _,
    adjust_bins_go_ge_two _ _ _ _ _ _ (by norm_num [n_bins_default]), rfl, rfl, rfl, ?_⟩
  intro fuel n_bins
  refine ⟨?_, ?_, ?_, ?_⟩
  · intro h1
    simp only [adjust_bins_go]
    rw [if_pos h1]
  · intro h1 h2 h3
    simp only [adjust_bins_go]
    rw [if_neg h1, if_pos h2, if_pos h3, h3]
  · intro h1 h2 h3
    simp only [adjust_bins_go]
    rw [if_neg h1, if_pos h2, if_neg h3]
  · intro h1 h2
    simp only [adjust_bins_go]
    rw [if_neg h1, if_neg h2]

/-- Witness for C2 at a concrete two-sample batch with the default
compression range. -/
theorem adjust_bins_bounded_search_witness :
    adjust_bins_trials MutualInfoQuantile.digitize ([[0], [1]] : List (List ℚ))
        (1/2) (999/1000) ≤ 10
    ∧ 2 ≤ adjust_bins MutualInfoQuantile.digitize ([[0], [1]] : List (List ℚ))
        (1/2) (999/1000) :=
  ⟨(adjust_bins_bounded_search MutualInfoQuantile.digitize [[0], [1]] (1/2) (999/1000)
      (by decide)).1,
   (adjust_bins_bounded_search MutualInfoQuantile.digitize [[0], [1]] (1/2) (999/1000)
      (by decide)).2.1⟩

/-- C3 counterexample: on a state where the evaluation loader is unset
(prepare never ran), a schedule-permitted call of start_listening is NOT a
no-op: it installs a wrapper on the registered layer and sets the session
active. -/
theorem start_listening_unprepared_not_noop :
    exState.eval_loader = none
    ∧ (start_listening true exState).is_active = true
    ∧ currentForward (start_listening true exState) 0
        = Forward.wrapped 0 "fc" (Forward.orig 0)
    ∧ currentForward (start_listening true exState) 0 ≠ Forward.orig 0 := by
  decide

/-- C3 (amended): the silent not-ready no-op lives in update, not in
start_listening: calling update with the evaluation loader unset returns the
state unchanged, installing nothing and never invoking start_listening, while
start_listening itself does not consult the loader. -/
theorem update_unprepared_noop (gate : ScheduleVerdict)
    (compute : String → ActVal → List ℤ × ℚ × ℚ × ℕ)
    (runModel : Tensor → MIState → MIState) (s : MIState)
    (h : s.eval_loader = none) :
    update gate compute runModel s = s := by
  simp [update, h]

/-- Witness for the amended C3 at the concrete unprepared state. -/
theorem update_unprepared_noop_witness :
    update true exCompute exRunModel exState = exState :=
  update_unprepared_noop true exCompute exRunModel exState rfl

/-- C4: a wrapper installed by start_listening fails the assertion (modelled
as `none`) whenever the session is not active; when the session is active it
returns exactly the recorded original's output on the same input and passes
that output to save_activations, which appends it to the layer's buffer if
and only if the buffered sample count before the call is below the configured
cap. -/
theorem wrapped_forward_contract
    (origSem : ℕ → Tensor → Tensor) (s : MIState) (wid : ℕ) (name : String)
    (inner : Forward) (fid : ℕ) (input out : Tensor) (ts : List Tensor) :
    (s.is_active = false →
        evalForward origSem (Forward.wrapped wid name inner) s input = none)
    ∧ (s.is_active = true →
        evalForward origSem (Forward.wrapped wid name inner) s input
          = (evalForward origSem inner s input).map
              (fun p => (p.1, save_activations name p.1 p.2)))
    ∧ (s.is_active = true →
        evalForward origSem (Forward.wrapped wid name (Forward.orig fid)) s input
          = some (origSem fid input, save_activations name (origSem fid input) s))
    ∧ ((alookup s.activations name).getD (ActVal.raws []) = ActVal.raws ts →
        (((ts.map List.length).sum : WithTop ℕ) < s.estimate_size →
            save_activations name out s
              = { s with activations :=
                    alistSet s.activations name (ActVal.raws (ts ++ [out])) })
        ∧ (¬ ((ts.map List.length).sum : WithTop ℕ) < s.estimate_size →
            save_activations name out s = s)) := by
  refine ⟨?_, ?_, ?_, ?_⟩
  · intro h
    simp [evalForward, h]
  · intro h
    simp only [evalForward, h, if_true]
    cases hE : evalForward origSem inner s input with
    | none => rfl
    | some p => rfl
  · intro h
    simp [evalForward, h]
  · intro hb
    refine ⟨fun hlt => ?_, fun hge => ?_⟩
    · simp only [save_activations, hb]
      rw [if_pos hlt]
    · simp only [save_activations, hb]
      rw [if_neg hge]

/-- Witness for C4 at concrete active, inactive and buffer-full states. -/
theorem wrapped_forward_contract_witness :
    evalForward exOrigSem (Forward.wrapped 0 "fc" (Forward.orig 0)) exState [[1]] = none
    ∧ evalForward exOrigSem (Forward.wrapped 0 "fc" (Forward.orig 0)) exStateActive [[1]]
        = (evalForward exOrigSem (Forward.orig 0) exStateActive [[1]]).map
            (fun p => (p.1, save_activations "fc" p.1 p.2))
    ∧ evalForward exOrigSem (Forward.wrapped 0 "fc" (Forward.orig 0)) exStateActive [[1]]
        = some (exOrigSem 0 [[1]], save_activations "fc" (exOrigSem 0 [[1]]) exStateActive)
    ∧ save_activations "fc" [[2]] exStateActive
        = { exStateActive with
            activations := alistSet exStateActive.activations "fc"
              (ActVal.raws ([] ++ [[[2]]])) }
    ∧ save_activations "fc" [[2]] exStateCapped = exStateCapped :=
  ⟨(wrapped_forward_contract exOrigSem exState 0 "fc" (Forward.orig 0) 0
      [[1]] [[2]] []).1 rfl,
   (wrapped_forward_contract exOrigSem exStateActive 0 "fc" (Forward.orig 0) 0
      [[1]] [[2]] []).2.1 rfl,
   (wrapped_forward_contract exOrigSem exStateActive 0 "fc" (Forward.orig 0) 0
      [[1]] [[2]] []).2.2.1 rfl,
   ((wrapped_forward_contract exOrigSem exStateActive 0 "fc" (Forward.orig 0) 0
      [[1]] [[2]] []).2.2.2 rfl).1 (by decide),
   ((wrapped_forward_contract exOrigSem exStateCapped 0 "fc" (Forward.orig 0) 0
      [[1]] [[2]] []).2.2.2 rfl).2 (by decide)⟩

/-- C5: finish_listening on an inactive state is a complete no-op: it returns
the state unchanged (no forward restored or modified, buffers, quantized
cache, information record, bin counts and the active flag untouched) and the
asynchronous computation is never consulted. -/
theorem finish_listening_inactive_noop
    (compute : String → ActVal → List ℤ × ℚ × ℚ × ℕ) (s : MIState)
    (h : s.is_active = false) :
    finish_listening compute s = s := by
  rw [finish_listening, if_neg (by simp [h])]

/-- Witness for C5 at the concrete inactive state. -/
theorem finish_listening_inactive_noop_witness :
    finish_listening exCompute exState = exState :=
  finish_listening_inactive_noop exCompute exState rfl

/-- The concrete activation batch used in the C6 witness. -/
def qRows : List (List ℚ) := [[0], [0], [1]]

/-- C6: the fixed-range and quantile digitizers keep one digitized row per
input sample, and the shared histogram quantize step collapses duplicate
digitized rows to a dense inverse-index alphabet, so it returns one integer
symbol per input sample, every symbol indexes the distinct-row array, and the
number of distinct output symbols is at most the number of input samples. -/
theorem bin_quantize_dense_symbols :
    (∀ (rows : List (List ℚ)) (n_bins : ℕ),
        (MutualInfoQuantile.digitize rows n_bins).length = rows.length)
    ∧ (∀ (rows : List (List ℝ)) (n_bins : ℕ),
        (MutualInfoBinFixed.digitize rows n_bins).length = rows.length)
    ∧ (∀ (α : Type) (dig : List (List α) → ℕ → List (List ℤ))
        (rows : List (List α)) (n_bins : ℕ),
        (dig rows n_bins).length = rows.length → 0 < rows.length →
        (MutualInfoBin.quantize dig rows n_bins).length = rows.length
        ∧ (MutualInfoBin.quantize dig rows n_bins).dedup.length ≤ rows.length
        ∧ MutualInfoBin.quantize dig rows n_bins = npUniqueInverse (dig rows n_bins)
        ∧ ∀ sym ∈ MutualInfoBin.quantize dig rows n_bins,
            0 ≤ sym ∧ sym < ((npUniqueRows (dig rows n_bins)).length : ℤ)) := by
  refine ⟨fun rows n_bins => by simp [MutualInfoQuantile.digitize],
    fun rows n_bins => by simp [MutualInfoBinFixed.digitize], ?_⟩
  intro α dig rows n_bins hlen hpos
  refine ⟨?_, ?_, rfl, ?_⟩
  · simp [MutualInfoBin.quantize, npUniqueInverse, hlen]
  · calc (MutualInfoBin.quantize dig rows n_bins).dedup.length
        ≤ (MutualInfoBin.quantize dig rows n_bins).length :=
          (List.dedup_sublist _).length_le
      _ = rows.length := by simp [MutualInfoBin.quantize, npUniqueInverse, hlen]
  · intro sym hsym
    simp only [MutualInfoBin.quantize, npUniqueInverse, List.mem_map] at hsym
    obtain ⟨r, hr, hryes⟩ := hsym
    subst hryes
    refine ⟨Int.natCast_nonneg _, ?_⟩
    exact_mod_cast idxOf_lt_length _ r
      ((mem_sortRows r _).mpr (List.mem_dedup.mpr hr))

/-- Witness for C6: the shared quantize step applied to the quantile
digitizer on a concrete three-sample batch. -/
theorem bin_quantize_dense_symbols_witness :
    (MutualInfoBin.quantize MutualInfoQuantile.digitize qRows 2).length = qRows.length
    ∧ (MutualInfoBin.quantize MutualInfoQuantile.digitize qRows 2).dedup.length
        ≤ qRows.length
    ∧ MutualInfoBin.quantize MutualInfoQuantile.digitize qRows 2
        = npUniqueInverse (MutualInfoQuantile.digitize qRows 2)
    ∧ ∀ sym ∈ MutualInfoBin.quantize MutualInfoQuantile.digitize qRows 2,
        0 ≤ sym ∧ sym < ((npUniqueRows (MutualInfoQuantile.digitize qRows 2)).length : ℤ) :=
  bin_quantize_dense_symbols.2.2 ℚ MutualInfoQuantile.digitize qRows 2
    (by decide) (by decide)

/-- C7 counterexample: with n_bins = 2 the fixed-range digitizer produces
three distinct integer levels (0, 1 and the clamp boundary 2) on a concrete
nine-sample batch, so its entries are not confined to n_bins integer
levels. -/
theorem fixed_digitize_levels_counterexample :
    (MutualInfoBinFixed.digitize fixedMat 2).flatten.dedup.length = 3
    ∧ ¬ (∀ e ∈ (MutualInfoBinFixed.digitize fixedMat 2).flatten, 0 ≤ e ∧ e < (2 : ℤ)) := by
  rw [digitize_fixedMat]
  refine ⟨by decide, ?_⟩
  intro h
  have h2 := h 2 (by decide)
  omega

/-- C7 (amended): on nondegenerate inputs, where every referenced feature
column has nonzero standard deviation so that the range
[mean - 2 std, mean + 2 std] has nonzero width and the float computation
produces no NaN, the fixed-range digitizer maps each sample linearly from
that per-column range, clamped to it, and every output entry is one of the
n_bins + 1 integer levels 0..n_bins. -/
theorem fixed_digitize_level_range (rows : List (List ℝ)) (n_bins : ℕ) (e : ℤ)
    (_hndeg : ∀ r ∈ rows, ∀ j < r.length, colStd rows j ≠ 0)
    (he : e ∈ (MutualInfoBinFixed.digitize rows n_bins).flatten) :
    0 ≤ e ∧ e ≤ (n_bins : ℤ) := by
  rw [MutualInfoBinFixed.digitize] at he
  simp only [List.mem_flatten, List.mem_map] at he
  obtain ⟨row, ⟨r, hr, hrow⟩, hee⟩ := he
  subst hrow
  simp only [List.mem_map] at hee
  obtain ⟨j, hj, hee⟩ := hee
  subst hee
  exact floatToLong_clamp_mem n_bins _

/-- Witness for the amended C7: the counterexample batch is nondegenerate
(its single column has standard deviation 1) and its entry 1 lies within the
levels 0..2. -/
theorem fixed_digitize_level_range_witness :
    0 ≤ (1 : ℤ) ∧ (1 : ℤ) ≤ ((2 : ℕ) : ℤ) :=
  fixed_digitize_level_range fixedMat 2 1
    (by
      intro r hr j hj
      have h1 : colStd fixedMat 0 = 1 := colStd_fixedMat
      have hlen : r.length = 1 := by
        simp only [fixedMat, List.mem_cons, List.not_mem_nil, or_false] at hr
        rcases hr with h | h | h | h | h | h | h | h | h <;> subst h <;> rfl
      have hj0 : j = 0 := by omega
      subst hj0
      rw [h1]
      exact one_ne_zero)
    (by rw [digitize_fixedMat]; decide)

/-- C8: the k-means variant returns the digitization (the per-sample cluster
labels) directly as the quantization, skipping the unique-plus-inverse
collapse the shared histogram quantize applies: on the same label matrix the
shared quantize re-indexes to the dense alphabet while the k-means quantize
returns the labels unchanged. -/
theorem kmeans_quantize_skips_collapse :
    (∀ (fitPredict : List (List ℚ) → ℕ → List ℤ)
        (activations : List (List ℚ)) (n_bins : ℕ),
        MutualInfoKMeans.quantize fitPredict activations n_bins
          = MutualInfoKMeans.digitize fitPredict activations n_bins)
    ∧ MutualInfoKMeans.quantize (fun _ _ => [5, 5]) [[0], [0]] 2 = [5, 5]
    ∧ MutualInfoBin.quantize (fun _ _ => [[5], [5]]) ([[0], [0]] : List (List ℚ)) 2 = [0, 0]
    ∧ ([5, 5] : List ℤ) ≠ [0, 0] := by
  refine ⟨fun _ _ _ => rfl, rfl, by decide, by decide⟩

/-- C9: plot fails the assertion (modelled as `none`) exactly when a pass is
still active; when inactive and the information record is empty it returns
with no plotting calls; when inactive and non-empty it emits the mutual
information plane line carrying every recorded entry (in record order) after
the dispersion plot, and clears the record. -/
theorem plot_consumes_information_record (gate : ScheduleVerdict) (s : MIState) :
    (plot gate s = none ↔ s.is_active = true)
    ∧ (s.is_active = false → s.information = [] → plot gate s = some (s, []))
    ∧ (s.is_active = false → s.information ≠ [] →
        plot gate s = some ({ s with information := [] },
          plot_quantized_dispersion gate s
            ++ [VizEvent.line "Mutual information plane"
                  (s.information.map (fun p => p.2.1))
                  (s.information.map (fun p => p.2.2))
                  (s.information.map (fun p => p.1))])) := by
  refine ⟨?_, ?_, ?_⟩
  · by_cases hact : s.is_active = true
    · simp [plot, hact]
    · constructor
      · intro h
        exfalso
        by_cases hemp : s.information.isEmpty
        · rw [plot, if_neg hact, if_pos hemp] at h
          cases h
        · rw [plot, if_neg hact, if_neg hemp] at h
          cases h
      · intro h
        exact absurd h hact
  · intro h1 h2
    have hact : ¬ s.is_active = true := by simp [h1]
    have hemp : s.information.isEmpty := by rw [h2]; rfl
    rw [plot, if_neg hact, if_pos hemp]
  · intro h1 h2
    have hact : ¬ s.is_active = true := by simp [h1]
    have hemp : ¬ s.information.isEmpty := by
      cases hi : s.information with
      | nil => exact absurd hi h2
      | cons a t => simp
    rw [plot, if_neg hact, if_neg hemp]

/-- Witness for C9 at concrete active, empty-record and one-entry states. -/
theorem plot_consumes_information_record_witness :
    plot true exStateActive = none
    ∧ plot true exState = some (exState, [])
    ∧ plot true exStateInfo
        = some ({ exStateInfo with information := [] },
            plot_quantized_dispersion true exStateInfo
              ++ [VizEvent.line "Mutual information plane" [1] [2] ["fc"]]) :=
  ⟨(plot_consumes_information_record true exStateActive).1.mpr rfl,
   (plot_consumes_information_record true exState).2.1 rfl rfl,
   (plot_consumes_information_record true exStateInfo).2.2 rfl (by decide)⟩

/-- C10: register never modifies any layer's forward computation; it
unconditionally stores the pair (layer, the layer's forward at call time)
under the given name, so re-registering a name, including while the layer is
currently wrapped, silently replaces the stored original with the layer's
current forward. -/
theorem register_stores_current_forward (s : MIState) (lid : ℕ) (name : String) :
    (register s lid name).layerForward = s.layerForward
    ∧ (∀ lid2, currentForward (register s lid name) lid2 = currentForward s lid2)
    ∧ alookup (register s lid name).layers name = some (lid, currentForward s lid) := by
  refine ⟨rfl, fun lid2 => rfl, ?_⟩
  simp [register, alookup_alistSet_self]
